import Mathlib

/-!
Verification development for the docvalid trade-document pipeline
(`backend/documents/tasks.py`, `backend/documents/views.py`,
`backend/documents/models.py`).

The Python source is shallowly embedded: regular-expression heuristics of
`parse_text_for_metadata` become specialised executable matchers over
`List Char` with Python `re` leftmost-match / backtracking semantics,
JSON metadata values become `JVal`, Django querysets become Lean lists in
store order, and the Celery task body becomes a pure function of an
environment recording which fallible effects (DB saves, file-path
resolution) succeed.
-/

namespace DocValid

/-! ## Character classes (ASCII fragment of Python `re` classes) -/

/-- Python regex word character (`\w`, ASCII fragment): letter, digit or underscore. -/
def isWordChar (c : Char) : Bool := c.isAlphanum || c == '_'

/-- Python whitespace (`\s`, ASCII fragment). -/
def isPySpace (c : Char) : Bool :=
  c == ' ' || c == '\t' || c == '\n' || c == '\r' || c == '\x0b' || c == '\x0c'

/-- Character class of the separator `[:\s]` used after "HS", "Consignee", "Shipper". -/
def isLabelSep (c : Char) : Bool := c == ':' || isPySpace c

/-- Character class `[\d\.,]` of the value pattern. -/
def isValChar (c : Char) : Bool := c.isDigit || c == '.' || c == ','

/-- Currency-symbol class `[£€$]` of the value pattern. -/
def isCurSym (c : Char) : Bool := c == '£' || c == '€' || c == '$'

/-- Character class `[:\s-]` of the first AWB alternative. -/
def isAwbSep (c : Char) : Bool := c == ':' || c == '-' || isPySpace c

/-- Character class `[\w-]` of the third AWB alternative. -/
def isWordDash (c : Char) : Bool := isWordChar c || c == '-'

/-- Character class `[\w\s,\-.]` of the consignee/shipper fallback pattern. -/
def isNameChar (c : Char) : Bool :=
  isWordChar c || isPySpace c || c == ',' || c == '-' || c == '.'

/-- Uppercase latin letter `[A-Z]`. -/
def isUpperAZ (c : Char) : Bool := 'A' ≤ c && c ≤ 'Z'

/-- Truth of `isWordChar` through an optional character; positions outside the
text count as non-word, exactly as `\b` treats the ends of the subject. -/
def wordOpt : Option Char → Bool
  | none => false
  | some c => isWordChar c

/-- A word boundary `\b` holds before the current position when the previous
character is absent or not a word character (all our patterns start with a
word character, so this is the full boundary condition at the start). -/
def nonWordOpt (p : Option Char) : Bool := !wordOpt p

/-! ## List helpers -/

/-- Element at an index, as an `Option` (own definition for stable `rfl` lemmas). -/
def nthChar : List Char → Nat → Option Char
  | [], _ => none
  | c :: _, 0 => some c
  | _ :: t, n + 1 => nthChar t n

/-- Length of the longest prefix whose characters all satisfy `p`;
this is how a greedy `C*` over a character class `C` consumes input. -/
def countLeading (p : Char → Bool) : List Char → Nat
  | [] => 0
  | c :: t => if p c then countLeading p t + 1 else 0

/-- First `n` characters all satisfy `p` (and at least `n` characters exist):
an exact-repetition class match such as `[A-Z]{4}`. -/
def checkN (p : Char → Bool) (n : Nat) (l : List Char) : Bool :=
  decide ((l.take n).length = n) && (l.take n).all p

/-- The descending list `hi, hi-1, ..., lo` (empty when `lo > hi`): the order
in which a greedy bounded quantifier offers match lengths while backtracking. -/
def downFrom (hi lo : Nat) : List Nat :=
  (List.range (hi + 1 - lo)).map fun k => hi - k

/-- Python `str.strip()`: remove leading and trailing whitespace. -/
def pyStrip (s : String) : String :=
  String.mk (((s.data.dropWhile isPySpace).reverse.dropWhile isPySpace).reverse)

/-- Case-insensitive match of a literal `label` as a prefix of `l`. -/
def matchCI : List Char → List Char → Bool
  | [], _ => true
  | _ :: _, [] => false
  | a :: la, c :: lc => (a.toLower == c.toLower) && matchCI la lc

/-! ## Leftmost-match scanning

`re.search` / first element of `re.findall` return the match at the least
starting position.  A per-position matcher receives the previous character
(for `\b`) and the suffix starting at the position; `scanGo` tries the
positions left to right. -/

/-- Try the matcher at each position of `rest`, left to right, threading the
previous character; returns the first success. -/
def scanGo (f : Option Char → List Char → Option α) : Option Char → List Char → Option α
  | p, [] => f p []
  | p, c :: t =>
    match f p (c :: t) with
    | some v => some v
    | none => scanGo f (some c) t

/-- Leftmost match of the per-position matcher `f` over the whole text. -/
def scanFirst (f : Option Char → List Char → Option α) (cs : List Char) : Option α :=
  scanGo f none cs

/-- Previous character seen from position `i` of `rest` when the character
just before `rest` is `p`. -/
def prevFrom (p : Option Char) (rest : List Char) (i : Nat) : Option Char :=
  if i = 0 then p else nthChar rest (i - 1)

/-- The matcher `f` applied at absolute position `i` of the text `cs`. -/
def atPos (f : Option Char → List Char → Option α) (cs : List Char) (i : Nat) : Option α :=
  f (prevFrom none cs i) (cs.drop i)

/-! ## Whitespace normalisation

`s_norm = re.sub(r'\s+', ' ', s)`: every maximal whitespace run becomes a
single space. -/

/-- Normalisation worker; the flag records whether the previous character was
part of a whitespace run already emitted as one space. -/
def normCharsAux : Bool → List Char → List Char
  | _, [] => []
  | inRun, c :: t =>
    if isPySpace c then
      if inRun then normCharsAux true t else ' ' :: normCharsAux true t
    else c :: normCharsAux false t

/-- Whitespace normalisation of `parse_text_for_metadata`. -/
def normalizeWs (s : String) : String := String.mk (normCharsAux false s.data)

/-! ## Per-field matchers of `parse_text_for_metadata` -/

/-- Matcher for `\bHS[:\s]*([0-9]{4,10})\b` (IGNORECASE) at one position.
The separator class and the digit class are disjoint from each other and from
what follows, so the greedy pieces are forced: the digit run must have length
4..10 and end at a word boundary; the capture is the digit run. -/
def hsCore (p : Option Char) (rest : List Char) : Option String :=
  match rest with
  | c1 :: c2 :: t =>
    if nonWordOpt p && (c1 == 'H' || c1 == 'h') && (c2 == 'S' || c2 == 's') then
      let sep := countLeading isLabelSep t
      let t2 := t.drop sep
      let d := countLeading Char.isDigit t2
      if 4 ≤ d && d ≤ 10 && nonWordOpt (nthChar t2 d) then
        some (String.mk (t2.take d))
      else none
    else none
  | _ => none

/-- Matcher for the fallback `\b([0-9]{6})\b` at one position: a standalone
run of exactly six digits. -/
def sixCore (p : Option Char) (rest : List Char) : Option String :=
  let d := countLeading Char.isDigit rest
  if nonWordOpt p && 6 ≤ d && nonWordOpt (nthChar rest 6) && decide (d = 6) then
    some (String.mk (rest.take 6))
  else none

/-- The closed currency alternation of the parser, in source order. -/
def currencyCodes : List String := ["AED", "USD", "EUR", "GBP", "JPY", "CHF", "SAR", "INR"]

/-- Matcher for `\b(AED|USD|EUR|GBP|JPY|CHF|SAR|INR)\b` at one position. -/
def currencyCore (p : Option Char) (rest : List Char) : Option String :=
  if nonWordOpt p then
    currencyCodes.findSome? fun code =>
      if code.data.isPrefixOf rest && nonWordOpt (nthChar rest 3) then some code else none
  else none

/-- Matcher for `([£€$]?\s?[\d\.,]{3,}\b)` at one position.  The two optional
single-character pieces are greedy (prefer present), the class run is greedy
with backtracking down to 3 until the trailing `\b` holds; the capture is the
whole group including any consumed symbol/space. -/
def valueCore (_p : Option Char) (rest : List Char) : Option String :=
  let symOpts : List Nat :=
    match rest with
    | c :: _ => if isCurSym c then [1, 0] else [0]
    | [] => [0]
  symOpts.findSome? fun sym =>
    let r1 := rest.drop sym
    let wsOpts : List Nat :=
      match r1 with
      | c :: _ => if isPySpace c then [1, 0] else [0]
      | [] => [0]
    wsOpts.findSome? fun ws =>
      let r2 := r1.drop ws
      let m0 := countLeading isValChar r2
      (downFrom m0 3).findSome? fun m =>
        if wordOpt (nthChar r2 (m - 1)) != wordOpt (nthChar r2 m) then
          some (String.mk (rest.take (sym + ws + m)))
        else none

/-- Matcher for `\b([A-Z]{4}\d{7})\b` at one position (container number). -/
def containerCore (p : Option Char) (rest : List Char) : Option String :=
  if nonWordOpt p && checkN isUpperAZ 4 rest && checkN Char.isDigit 7 (rest.drop 4) &&
      nonWordOpt (nthChar rest 11) then
    some (String.mk (rest.take 11))
  else none

/-- Matcher for `\b(AWB[:\s-]*\w+|\d{3}\s?\d{8}|\bAWB[\w-]{3,}\b)\b`
(IGNORECASE) at one position; alternatives are tried in source order.  In the
first alternative the separator and word classes are disjoint, so greedy
consumption is forced and the trailing boundary holds by maximality.  In the
second, `\s?` prefers to consume a space and cannot backtrack usefully.  In
the third, the class run backtracks until the final boundary holds. -/
def awbCore (p : Option Char) (rest : List Char) : Option String :=
  if nonWordOpt p then
    let alt1 : Option String :=
      if matchCI ['a', 'w', 'b'] rest then
        let t := rest.drop 3
        let sep := countLeading isAwbSep t
        let w := countLeading isWordChar (t.drop sep)
        if 1 ≤ w then some (String.mk (rest.take (3 + sep + w))) else none
      else none
    let alt2 : Option String :=
      if checkN Char.isDigit 3 rest then
        let t := rest.drop 3
        match t with
        | c :: _ =>
          if isPySpace c then
            if checkN Char.isDigit 8 (t.drop 1) && nonWordOpt (nthChar t 9) then
              some (String.mk (rest.take 12))
            else none
          else
            if checkN Char.isDigit 8 t && nonWordOpt (nthChar t 8) then
              some (String.mk (rest.take 11))
            else none
        | [] => none
      else none
    let alt3 : Option String :=
      if matchCI ['a', 'w', 'b'] rest then
        let t := rest.drop 3
        let run := countLeading isWordDash t
        (downFrom run 3).findSome? fun m =>
          if wordOpt (nthChar t (m - 1)) != wordOpt (nthChar t m) then
            some (String.mk (rest.take (3 + m)))
          else none
      else none
    match alt1 with
    | some v => some v
    | none => match alt2 with
      | some v => some v
      | none => alt3
  else none

/-- Matcher for `LABEL[:\s]*(.{1,80}?)\s{2,}` (IGNORECASE) at one position,
run against the unnormalised text.  Backtracking order of the engine: the
greedy separator prefers the longest prefix of `[:\s]` characters and gives
back one at a time; inside each separator choice the lazy group grows from 1
to 80 non-newline characters until at least two whitespace characters
follow. -/
def labelCore (label : List Char) (_p : Option Char) (rest : List Char) : Option String :=
  if matchCI label rest then
    let t := rest.drop label.length
    let maxSep := countLeading isLabelSep t
    (downFrom maxSep 0).findSome? fun sep =>
      let u := t.drop sep
      (List.range 80).findSome? fun k =>
        let g := k + 1
        if decide ((u.take g).length = g) && (u.take g).all (fun c => c != '\n') &&
            checkN isPySpace 2 (u.drop g) then
          some (String.mk (u.take g))
        else none
  else none

/-- Matcher for the fallback `LABEL[:\s]*(\w[\w\s\,\-\.]{1,80})` (IGNORECASE)
at one position.  The separator class is disjoint from `\w`, so its greedy
consumption is forced; the inner class run is greedy with nothing after it,
so it takes `min(run, 80)` characters and needs at least one. -/
def labelCoreFb (label : List Char) (_p : Option Char) (rest : List Char) : Option String :=
  if matchCI label rest then
    let t := rest.drop label.length
    let sep := countLeading isLabelSep t
    match t.drop sep with
    | c :: u =>
      if isWordChar c then
        let m := min (countLeading isNameChar u) 80
        if 1 ≤ m then some (String.mk (c :: u.take m)) else none
      else none
    | [] => none
  else none

/-- The label `Consignee` as a character list. -/
def consigneeLbl : List Char := ['c', 'o', 'n', 's', 'i', 'g', 'n', 'e', 'e']

/-- The label `Shipper` as a character list. -/
def shipperLbl : List Char := ['s', 'h', 'i', 'p', 'p', 'e', 'r']

/-! ## The parser `parse_text_for_metadata` -/

/-- Result of `parse_text_for_metadata`: a Python dict whose key set is drawn
from seven fixed keys, modelled as one optional field per key. -/
structure Parsed where
  hs_code : Option String := none
  currency : Option String := none
  value : Option String := none
  container_number : Option String := none
  bol_awb_number : Option String := none
  consignee : Option String := none
  shipper : Option String := none
  deriving DecidableEq, Repr

/-- Numeric cleanup `re.sub(r'[^\d\.]', '', v)` of the captured value. -/
def valueClean (v : String) : String :=
  String.mk (v.data.filter fun c => c.isDigit || c == '.')

/-- The `hs_code` field: the first explicit `HS`-prefixed match, else the
first standalone six-digit run, else absent. -/
def hsField (n : List Char) : Option String :=
  match scanFirst hsCore n with
  | some v => some v
  | none => scanFirst sixCore n

/-- The `value` field: numeric cleanup of the first currency-like token,
dropped when the cleanup leaves nothing. -/
def valueField (n : List Char) : Option String :=
  match scanFirst valueCore n with
  | some cap => let cl := valueClean cap; if cl == "" then none else some cl
  | none => none

/-- A consignee/shipper field: the double-space-terminated pattern first,
else the word-run fallback pattern; the capture is stripped. -/
def labelField (label : List Char) (orig : List Char) : Option String :=
  match scanFirst (labelCore label) orig with
  | some g => some (pyStrip g)
  | none => (scanFirst (labelCoreFb label) orig).map pyStrip

/-- Shallow embedding of `parse_text_for_metadata` (tasks.py).  Empty input
returns the empty dict.  Most patterns run over the whitespace-normalised
text; consignee/shipper run over the original text.  Each field keeps only
the leftmost match. -/
def parse_text_for_metadata (s : String) : Parsed :=
  if s.data.isEmpty then {}
  else
    let n := (normalizeWs s).data
    { hs_code := hsField n,
      currency := scanFirst currencyCore n,
      value := valueField n,
      container_number := scanFirst containerCore n,
      bol_awb_number := (scanFirst awbCore n).map pyStrip,
      consignee := labelField consigneeLbl s.data,
      shipper := labelField shipperLbl s.data }

/-! ## JSON metadata values

`TradeDocument.metadata` is a JSON object with string keys and string or
number values.  `pyStr` is Python `str()`, `pyFalsy` is Python truthiness of
such a value (the "blank" test `not meta.get(k)` / `v` of the merge loop). -/

/-- A JSON metadata value: a string or an integer. -/
inductive JVal where
  | str (s : String)
  | num (n : Int)
  deriving DecidableEq, Repr

/-- Python `str()` of a metadata value. -/
def pyStr : JVal → String
  | .str s => s
  | .num n => toString n

/-- Python falsiness (the "blank" test) of a metadata value: the empty string
and the number zero are falsy. -/
def pyFalsy : JVal → Bool
  | .str s => s == ""
  | .num n => n == 0

/-- A metadata mapping: an association list in dict insertion order. -/
abbrev Meta := List (String × JVal)

/-- Dict read: the value at the first occurrence of the key. -/
def metaGet : Meta → String → Option JVal
  | [], _ => none
  | (k', v) :: t, k => if k' = k then some v else metaGet t k

/-- Dict assignment `meta[k] = v`: replaces the value at an existing key in
place, otherwise appends the key at the end. -/
def metaSet : Meta → String → JVal → Meta
  | [], k, v => [(k, v)]
  | (k', v') :: t, k, v => if k' = k then (k, v) :: t else (k', v') :: metaSet t k v

/-! ## The metadata merge step of `extract_text_and_parse_task`

`for k, v in parsed.items(): if k not in meta or (not meta.get(k) and v):
meta[k] = v`. -/

/-- The merge guard for one parsed item: key absent, or present with a blank
value while the parsed value is non-blank. -/
def mergeCond (m : Meta) (k : String) (v : JVal) : Bool :=
  match metaGet m k with
  | none => true
  | some old => pyFalsy old && !pyFalsy v

/-- One iteration of the merge loop. -/
def mergeStep (m : Meta) (kv : String × JVal) : Meta :=
  if mergeCond m kv.1 kv.2 then metaSet m kv.1 kv.2 else m

/-- The whole merge loop over the parsed items. -/
def mergeMetadata (meta parsed : Meta) : Meta :=
  parsed.foldl mergeStep meta

/-- The `changed` flag of the merge loop: whether any assignment fired. -/
def mergeChanged (meta parsed : Meta) : Bool :=
  (parsed.foldl (fun p kv => (mergeStep p.1 kv, p.2 || mergeCond p.1 kv.1 kv.2))
    ((meta, false) : Meta × Bool)).2

/-- The parsed dict as a metadata mapping, in the parser's key insertion
order; all parsed values are strings. -/
def parsedToList (p : Parsed) : Meta :=
  (match p.hs_code with | some v => [("hs_code", JVal.str v)] | none => []) ++
  (match p.currency with | some v => [("currency", JVal.str v)] | none => []) ++
  (match p.value with | some v => [("value", JVal.str v)] | none => []) ++
  (match p.container_number with | some v => [("container_number", JVal.str v)] | none => []) ++
  (match p.bol_awb_number with | some v => [("bol_awb_number", JVal.str v)] | none => []) ++
  (match p.consignee with | some v => [("consignee", JVal.str v)] | none => []) ++
  (match p.shipper with | some v => [("shipper", JVal.str v)] | none => [])

/-- The merged mapping claimed by the spec, read at one key:
`M ∪ \x7bk: P[k] for k in P if k not in M or M[k] is blank\x7d`. -/
def specMergedGet (meta parsed : Meta) (k : String) : Option JVal :=
  match metaGet parsed k, metaGet meta k with
  | some pv, none => some pv
  | some pv, some mv => if pyFalsy mv then some pv else some mv
  | none, mo => mo

/-! ## Required-fields tables and missing files -/

/-- The pipeline-time table `REQUIRED_FIELDS` of tasks.py. -/
def REQUIRED_FIELDS_tasks : List (String × List String) :=
  [("invoice", ["hs_code", "goods_description", "value", "currency"]),
   ("packing_list", ["packing_list_file"]),
   ("bol_awb", ["bol_awb_file"]),
   ("delivery_order", ["delivery_order_file"])]

/-- The upload-time table `REQUIRED_FIELDS` of documents/views.py. -/
def REQUIRED_FIELDS_views : List (String × List String) :=
  [("invoice", ["hs_code", "goods_description", "unit_of_measure", "quantity", "weight",
     "value", "currency"]),
   ("packing_list", ["hs_code", "goods_description", "unit_of_measure", "quantity",
     "gross_weight", "net_weight", "number_of_packages"]),
   ("bol_awb", ["shipper", "consignee", "hs_code", "weight", "number_of_packages",
     "bol_awb_number"]),
   ("delivery_order", ["consignee", "container_number", "port_of_discharge", "currency",
     "value", "hs_code"])]

/-- `REQUIRED_FIELDS.get(doc_type, [])`. -/
def lookupTable (t : List (String × List String)) (k : String) : List String :=
  match t.find? (fun p => p.1 == k) with
  | some p => p.2
  | none => []

/-- `[f for f in required if f not in existing_files]`. -/
def missingFilesFor (required existing : List String) : List String :=
  required.filter fun f => decide (f ∉ existing)

/-! ## Documents and the cross-document matcher -/

/-- A `TradeDocument` as the validation engine sees it: id, uploader, type,
metadata, and the field names of its uploaded `DocumentFile`s. -/
structure Doc where
  id : Nat
  uploader : Nat
  docType : String
  metadata : Meta
  files : List String
  deriving Repr

/-- The fixed candidate field set of the matcher, in source order. -/
def possibleKeys : List String :=
  ["hs_code", "consignee", "container_number", "value", "currency", "bol_awb_number", "shipper"]

/-- The four document types, in source order. -/
def requiredTypes : List String := ["invoice", "packing_list", "bol_awb", "delivery_order"]

/-- `str(value).strip()`: the trimmed string rendering under which the
matcher compares metadata values. -/
def reprTrim (v : JVal) : String := pyStrip (pyStr v)

/-- The trimmed rendering of a candidate's value at a key, when present. -/
def candRepr (m : Meta) (k : String) : Option String := (metaGet m k).map reprTrim

/-- `match_keys`: the candidate keys present in the source metadata with a
non-blank trimmed rendering, each paired with that rendering. -/
def matchKeys (meta : Meta) : List (String × String) :=
  possibleKeys.filterMap fun k =>
    match candRepr meta k with
    | some s => if s == "" then none else some (k, s)
    | none => none

/-- `all_keys_present`: every match key is present in the candidate with a
non-blank trimmed rendering. -/
def allPresentB (mk : List (String × String)) (m : Meta) : Bool :=
  mk.all fun kv => ((candRepr m kv.1).isSome) && ((candRepr m kv.1).getD "" != "")

/-- The `mismatch` flag: some match key whose candidate rendering (of
`cand_meta.get(k, '')`) differs from the source's value. -/
def mismatchB (mk : List (String × String)) (m : Meta) : Bool :=
  mk.any fun kv => (candRepr m kv.1).getD "" != kv.2

/-- Acceptance of one candidate by the matcher's inner loop. -/
def candAccepts (mk : List (String × String)) (m : Meta) : Bool :=
  allPresentB mk m && !mismatchB mk m

/-- The queryset `TradeDocument.objects.filter(uploader=..., doc_type=dtype)
.exclude(pk=doc.pk)`, in store order. -/
def docCandidates (store : List Doc) (doc : Doc) (dtype : String) : List Doc :=
  store.filter fun c => c.uploader == doc.uploader && c.docType == dtype && c.id != doc.id

/-- The matcher's verdict for one document type: `some id` when matched (the
source's own type matches itself with its own id; otherwise the first
accepted candidate), `none` when unmatched. -/
def findForType (store : List Doc) (doc : Doc) (mk : List (String × String))
    (dtype : String) : Option Nat :=
  if doc.docType == dtype then some doc.id
  else ((docCandidates store doc dtype).find? fun c => candAccepts mk c.metadata).map (·.id)

/-! ## The validation engine `run_validation_for_document` -/

/-- The validation results record (the keys of the Python `results` dict that
the claims are about). -/
structure ValResults where
  missingFiles : List String
  reason : Option String
  matchKeysOut : List (String × String)
  found : List (String × Option Nat)
  missingTypes : List String
  ready : Bool
  message : String
  deriving Repr

/-- Python `str()` of a list of strings, as interpolated into the f-string
of the missing-files clause. -/
def pyListRepr (l : List String) : String :=
  "[" ++ String.intercalate ", " (l.map fun s => "'" ++ s ++ "'") ++ "]"

/-- The fixed success sentence. -/
def readyMessage : String := "All related documents found and consistent. Ready for approval."

/-- Shallow embedding of `run_validation_for_document` (tasks.py), given the
store (all trade documents, in iteration order) and the subject document. -/
def runValidation (store : List Doc) (doc : Doc) : ValResults :=
  let required := lookupTable REQUIRED_FIELDS_tasks doc.docType
  let missingFiles := missingFilesFor required doc.files
  if doc.metadata.isEmpty then
    { missingFiles := missingFiles, reason := some "metadata_missing", matchKeysOut := [],
      found := [], missingTypes := [], ready := false,
      message := "Document has no metadata." }
  else
    let mk := matchKeys doc.metadata
    let found := requiredTypes.map fun t => (t, findForType store doc mk t)
    let missingTypes := requiredTypes.filter fun t => (findForType store doc mk t).isNone
    let ready := missingFiles.isEmpty && missingTypes.isEmpty
    let message :=
      if ready then readyMessage
      else String.intercalate " | "
        ((if missingFiles.isEmpty then []
          else ["Missing files for this document: " ++ pyListRepr missingFiles]) ++
         (if missingTypes.isEmpty then []
          else ["Missing or unmatched document types: " ++ String.intercalate ", " missingTypes]))
    { missingFiles := missingFiles, reason := none, matchKeysOut := mk, found := found,
      missingTypes := missingTypes, ready := ready, message := message }

/-- Association lookup in the `found` mapping. -/
def lookupFound (l : List (String × Option Nat)) (k : String) : Option (Option Nat) :=
  match l.find? (fun p => p.1 == k) with
  | some p => some p.2
  | none => none

/-- The readiness message as the spec describes it: the fixed success
sentence when ready, otherwise the pipe-separated concatenation of a
missing-files clause (if any) and a missing-types clause (if any). -/
def specReadyMessage (missingFiles missingTypes : List String) : String :=
  if missingFiles = [] ∧ missingTypes = [] then readyMessage
  else String.intercalate " | "
    ((if missingFiles = [] then []
      else ["Missing files for this document: " ++ pyListRepr missingFiles]) ++
     (if missingTypes = [] then []
      else ["Missing or unmatched document types: " ++ String.intercalate ", " missingTypes]))

/-! ## Extraction fallback selection (lines 139-143 of tasks.py)

The file-reading extractors are opaque; their outputs `direct` (PyMuPDF) and
`ocr` (pytesseract, already stripped) are the inputs of the selection. -/

/-- `not extracted or len(extracted.strip()) < 30`: whether the recognition
fallback is attempted. -/
def fallbackTriggered (direct : String) : Bool :=
  direct == "" || decide ((pyStrip direct).length < 30)

/-- The final extracted text: the OCR candidate replaces the direct text only
when the fallback was attempted, the OCR text is non-empty, and its stripped
length is strictly greater than the direct text's length. -/
def chooseExtractedText (direct ocr : String) : String :=
  if fallbackTriggered direct then
    if ocr != "" && decide (direct.length < (pyStrip ocr).length) then ocr else direct
  else direct

/-! ## The pipeline task `extract_text_and_parse_task`

State and effects are explicit: the environment lists the DB/file effects of
the task body and whether each would raise, plus the two extractor outputs
and the owning document's current metadata.  The run records the sequence of
successfully persisted `extraction_status` values and whether an exception
escaped the task to the scheduler. -/

/-- `DocumentFile.extraction_status` values. -/
inductive ExtStatus where
  | pending
  | running
  | done
  | failed
  deriving DecidableEq, Repr

/-- The structured payloads the task can return. -/
inductive TaskPayload where
  | notFound
  | donePayload
  | failedPayload
  deriving DecidableEq, Repr

/-- One invocation's environment: which fallible steps succeed, the extractor
outputs, and the owning document's metadata. -/
structure TaskEnv where
  fileExists : Bool
  runningSaveOk : Bool
  pathOk : Bool
  doneSaveOk : Bool
  metaSaveOk : Bool
  validationOk : Bool
  failSaveOk : Bool
  directText : String
  ocrText : String
  docMeta : Meta

/-- Observable outcome of one task invocation. -/
structure TaskRun where
  writes : List ExtStatus
  raised : Bool
  payload : Option TaskPayload
  auditedFailure : Bool
  deriving DecidableEq, Repr

/-- The `except Exception` handler: set status to failed (that save itself
may raise, in which case the exception escapes before the audit write), audit
the failure, return the structured failure payload. -/
def handleFailure (env : TaskEnv) (ws : List ExtStatus) : TaskRun :=
  if env.failSaveOk then
    { writes := ws ++ [ExtStatus.failed], raised := false,
      payload := some TaskPayload.failedPayload, auditedFailure := true }
  else
    { writes := ws, raised := true, payload := none, auditedFailure := false }

/-- Shallow embedding of the body of `extract_text_and_parse_task`.  The
DoesNotExist guard, the running-status save and the `df.file.path` resolution
run before the `try` block; extraction, the done-status save, the metadata
merge persistence and the validation run inside it. -/
def runExtractTask (env : TaskEnv) : TaskRun :=
  if !env.fileExists then
    { writes := [], raised := false, payload := some TaskPayload.notFound,
      auditedFailure := false }
  else if !env.runningSaveOk then
    { writes := [], raised := true, payload := none, auditedFailure := false }
  else if !env.pathOk then
    { writes := [ExtStatus.running], raised := true, payload := none, auditedFailure := false }
  else
    if !env.doneSaveOk then handleFailure env [ExtStatus.running]
    else
      let extracted := chooseExtractedText env.directText env.ocrText
      let parsed := parsedToList (parse_text_for_metadata extracted)
      let changed := !parsed.isEmpty && mergeChanged env.docMeta parsed
      if changed && !env.metaSaveOk then
        handleFailure env [ExtStatus.running, ExtStatus.done]
      else if !env.validationOk then
        handleFailure env [ExtStatus.running, ExtStatus.done]
      else
        { writes := [ExtStatus.running, ExtStatus.done], raised := false,
          payload := some TaskPayload.donePayload, auditedFailure := false }

/-! ## Lemmas about metadata dictionaries and the merge loop -/

theorem metaGet_metaSet (m : Meta) (k : String) (v : JVal) (j : String) :
    metaGet (metaSet m k v) j = if k = j then some v else metaGet m j := by
  induction m with
  | nil => simp [metaSet, metaGet]
  | cons a t ih =>
    obtain ⟨k', v'⟩ := a
    by_cases h : k' = k
    · subst h
      simp only [metaSet, if_pos rfl, metaGet]
      split <;> simp_all [metaGet]
    · simp only [metaSet, if_neg h, metaGet, ih]
      by_cases hj : k' = j
      · subst hj
        simp [show ¬ k = k' from fun hh => h hh.symm]
      · simp [hj]

theorem metaGet_mergeStep_ne (m : Meta) (kv : String × JVal) (j : String) (h : kv.1 ≠ j) :
    metaGet (mergeStep m kv) j = metaGet m j := by
  unfold mergeStep
  split
  · rw [metaGet_metaSet, if_neg h]
  · rfl

theorem metaGet_mergeMetadata_not_mem (P : Meta) (m : Meta) (j : String)
    (h : j ∉ P.map Prod.fst) : metaGet (mergeMetadata m P) j = metaGet m j := by
  induction P generalizing m with
  | nil => rfl
  | cons kv rest ih =>
    simp only [List.map_cons, List.mem_cons, not_or] at h
    show metaGet (List.foldl mergeStep (mergeStep m kv) rest) j = metaGet m j
    rw [show List.foldl mergeStep (mergeStep m kv) rest =
          mergeMetadata (mergeStep m kv) rest from rfl,
      ih (mergeStep m kv) h.2, metaGet_mergeStep_ne m kv j (fun he => h.1 he.symm)]

/-- C1, amended: the merged mapping equals M extended with exactly those
parsed items whose key is absent from M or maps in M to a blank value while
the parsed value is non-blank; in particular a key of M holding a non-blank
value is never overwritten.  (The unamended claim drops the non-blankness
condition on the parsed value.) -/
theorem C1_merge_amended (M P : Meta) (hP : (P.map Prod.fst).Nodup) :
    (∀ k, metaGet (mergeMetadata M P) k =
      match metaGet P k, metaGet M k with
      | some pv, none => some pv
      | some pv, some mv =>
          if pyFalsy mv = true ∧ pyFalsy pv = false then some pv else some mv
      | none, mo => mo) ∧
    (∀ k v, metaGet M k = some v → pyFalsy v = false →
      metaGet (mergeMetadata M P) k = some v) := by
  have main : ∀ (P : Meta), (P.map Prod.fst).Nodup → ∀ (M : Meta) (k : String),
      metaGet (mergeMetadata M P) k =
        match metaGet P k, metaGet M k with
        | some pv, none => some pv
        | some pv, some mv =>
            if pyFalsy mv = true ∧ pyFalsy pv = false then some pv else some mv
        | none, mo => mo := by
    intro P
    induction P with
    | nil => intro _ M k; rfl
    | cons kv rest ih =>
      intro hnd M k
      rw [List.map_cons, List.nodup_cons] at hnd
      show metaGet (List.foldl mergeStep (mergeStep M kv) rest) k = _
      by_cases hk : kv.1 = k
      · subst hk
        rw [show List.foldl mergeStep (mergeStep M kv) rest =
              mergeMetadata (mergeStep M kv) rest from rfl,
          metaGet_mergeMetadata_not_mem rest (mergeStep M kv) kv.1 hnd.1]
        show metaGet (mergeStep M kv) kv.1 =
          match metaGet (kv :: rest) kv.1, metaGet M kv.1 with
          | some pv, none => some pv
          | some pv, some mv =>
              if pyFalsy mv = true ∧ pyFalsy pv = false then some pv else some mv
          | none, mo => mo
        have hget : metaGet (kv :: rest) kv.1 = some kv.2 := by
          show (if kv.1 = kv.1 then some kv.2 else metaGet rest kv.1) = some kv.2
          rw [if_pos rfl]
        rw [hget]
        unfold mergeStep mergeCond
        cases cm : metaGet M kv.1 with
        | none => simp [metaGet_metaSet]
        | some mv =>
          cases hfm : pyFalsy mv with
          | false => simp [hfm, cm]
          | true =>
            cases hfv : pyFalsy kv.2 with
            | false => simp [hfm, hfv, metaGet_metaSet, cm]
            | true => simp [hfm, hfv, cm]
      · have hget : metaGet (kv :: rest) k = metaGet rest k := by
          show (if kv.1 = k then some kv.2 else metaGet rest k) = metaGet rest k
          rw [if_neg hk]
        rw [show List.foldl mergeStep (mergeStep M kv) rest =
              mergeMetadata (mergeStep M kv) rest from rfl,
          ih hnd.2 (mergeStep M kv) k, metaGet_mergeStep_ne M kv k hk, hget]
  refine ⟨main P hP M, fun k v hv hb => ?_⟩
  rw [main P hP M k]
  cases hp : metaGet P k with
  | none => exact hv
  | some pv => rw [hv]; simp [hb]

/-- C1 witness: a non-blank existing value survives the merge even when the
parser proposes the same key. -/
theorem C1_merge_amended_witness :
    metaGet (mergeMetadata [("k", JVal.str "old")] [("k", JVal.str "new")]) "k" =
      some (JVal.str "old") :=
  (C1_merge_amended [("k", JVal.str "old")] [("k", JVal.str "new")] (by decide)).2
    "k" (JVal.str "old") (by decide) (by decide)

/-- C1 counterexample: with existing metadata holding the blank number 0 at
"consignee" and the parsed mapping produced by the parser on the text
"Consignee:" followed by four spaces (whose parsed consignee is the empty
string), the code keeps the 0 while the claimed merge formula replaces it
with the empty string, so the merged mapping differs from the claimed one. -/
theorem C1_merge_counterexample :
    parsedToList (parse_text_for_metadata "Consignee:    ") =
      [("consignee", JVal.str "")] ∧
    metaGet (mergeMetadata [("consignee", JVal.num 0)]
        (parsedToList (parse_text_for_metadata "Consignee:    "))) "consignee" =
      some (JVal.num 0) ∧
    specMergedGet [("consignee", JVal.num 0)]
        (parsedToList (parse_text_for_metadata "Consignee:    ")) "consignee" =
      some (JVal.str "") ∧
    JVal.num 0 ≠ JVal.str "" := by decide

/-- C4 counterexample: on the spec's example text the value heuristic's
leftmost currency-like token is the HS digit run, so the parsed value is
"8501", not the claimed "1250.00". -/
theorem C4_example_counterexample :
    (parse_text_for_metadata
        "Invoice Consignee: ABC Trading LLC  HS: 8501 Value 1,250.00 USD").value ≠
      some "1250.00" := by decide

/-- C4 as amended: the example text parses to hs_code "8501", currency "USD",
consignee "ABC Trading LLC", and value "8501" (the leftmost currency-like
token is the HS digit run; numeric cleanup keeps dots and strips commas). -/
theorem C4_example_amended :
    parse_text_for_metadata
        "Invoice Consignee: ABC Trading LLC  HS: 8501 Value 1,250.00 USD" =
      { hs_code := some "8501", currency := some "USD", value := some "8501",
        container_number := none, bol_awb_number := none,
        consignee := some "ABC Trading LLC", shipper := none } := by decide

/-- C9: the upload-time and pipeline-time required-fields tables disagree on
the invoice type, and a document holding files for exactly the pipeline-time
invoice fields has empty missing files under the pipeline table but
non-empty missing files under the upload-time table. -/
theorem C9_required_fields_tables_diverge :
    lookupTable REQUIRED_FIELDS_views "invoice" ≠
      lookupTable REQUIRED_FIELDS_tasks "invoice" ∧
    missingFilesFor (lookupTable REQUIRED_FIELDS_tasks "invoice")
        ["hs_code", "goods_description", "value", "currency"] = [] ∧
    missingFilesFor (lookupTable REQUIRED_FIELDS_views "invoice")
        ["hs_code", "goods_description", "value", "currency"] =
      ["unit_of_measure", "quantity", "weight"] := by decide

/-! ## Extraction fallback: C6 -/

/-- C6: the recognition fallback is attempted exactly when the direct text is
empty or its stripped length is below 30; when attempted, the direct text is
kept whenever the fallback output's stripped length is not greater than the
direct text's length, and the fallback output wins when strictly longer. -/
theorem C6_extraction_fallback (direct ocr : String) :
    (fallbackTriggered direct = true ↔ direct = "" ∨ (pyStrip direct).length < 30) ∧
    (fallbackTriggered direct = false → chooseExtractedText direct ocr = direct) ∧
    (fallbackTriggered direct = true → (pyStrip ocr).length ≤ direct.length →
      chooseExtractedText direct ocr = direct) ∧
    (fallbackTriggered direct = true → direct.length < (pyStrip ocr).length →
      chooseExtractedText direct ocr = ocr) := by
  refine ⟨?_, ?_, ?_, ?_⟩
  · simp [fallbackTriggered]
  · intro h; simp [chooseExtractedText, h]
  · intro h hle
    simp only [chooseExtractedText, h, if_true]
    rw [if_neg]
    simp [Nat.not_lt.mpr hle]
  · intro h hlt
    have hocr : ocr ≠ "" := by
      rintro rfl
      rw [show (pyStrip "").length = 0 from rfl] at hlt
      exact Nat.not_lt_zero _ hlt
    simp only [chooseExtractedText, h, if_true]
    rw [if_pos]
    simp [hocr, hlt]

/-- C6 witness: a 4-character direct text triggers the fallback and a longer
recognized text wins. -/
theorem C6_extraction_fallback_witness :
    fallbackTriggered "tiny" = true ∧
    chooseExtractedText "tiny" "recognized text content here" =
      "recognized text content here" :=
  ⟨by decide,
   (C6_extraction_fallback "tiny" "recognized text content here").2.2.2
     (by decide) (by decide)⟩

/-! ## Readiness verdict: C3 -/

/-- C3: with non-empty metadata, readiness holds exactly when both the
missing-files list and the missing-types list are empty, and the message is
the fixed success sentence when ready, otherwise the pipe-separated
concatenation of the applicable clauses. -/
theorem C3_readiness_verdict (store : List Doc) (doc : Doc) (hmeta : doc.metadata ≠ []) :
    ((runValidation store doc).ready = true ↔
      (runValidation store doc).missingFiles = [] ∧
        (runValidation store doc).missingTypes = []) ∧
    (runValidation store doc).message =
      specReadyMessage (runValidation store doc).missingFiles
        (runValidation store doc).missingTypes := by
  have hne : doc.metadata.isEmpty = false := by
    cases hm : doc.metadata with
    | nil => exact absurd hm hmeta
    | cons a t => rfl
  simp only [runValidation, hne, Bool.false_eq_true, if_false, specReadyMessage]
  constructor
  · simp [List.isEmpty_iff]
  · simp only [Bool.and_eq_true, List.isEmpty_iff]

/-- C3 witness at a concrete document with non-empty metadata. -/
theorem C3_readiness_verdict_witness :
    (runValidation [] (Doc.mk 1 1 "invoice" [("x", JVal.str "y")] [])).message =
      specReadyMessage
        (runValidation [] (Doc.mk 1 1 "invoice" [("x", JVal.str "y")] [])).missingFiles
        (runValidation [] (Doc.mk 1 1 "invoice" [("x", JVal.str "y")] [])).missingTypes :=
  (C3_readiness_verdict [] (Doc.mk 1 1 "invoice" [("x", JVal.str "y")] []) (by decide)).2

/-! ## Matcher value comparison: C10 -/

/-- C10: the matcher's acceptance test and match-key construction depend on a
metadata mapping only through the trimmed string rendering of its values, and
the number 1250 is interchangeable with the string "1250". -/
theorem C10_matcher_string_coercion (mk : List (String × String)) (m₁ m₂ : Meta)
    (h : ∀ k, candRepr m₁ k = candRepr m₂ k) :
    candAccepts mk m₁ = candAccepts mk m₂ ∧ matchKeys m₁ = matchKeys m₂ ∧
    matchKeys [("value", JVal.num 1250)] = matchKeys [("value", JVal.str "1250")] ∧
    candAccepts [("value", "1250")] [("value", JVal.num 1250)] = true := by
  have hf : candRepr m₁ = candRepr m₂ := funext h
  refine ⟨?_, ?_, by decide, by decide⟩
  · simp only [candAccepts, allPresentB, mismatchB, hf]
  · simp only [matchKeys, hf]

/-- C10 witness: a candidate storing the number 1250 satisfies a source match
key holding the string "1250". -/
theorem C10_matcher_string_coercion_witness :
    candAccepts [("value", "1250")] [("value", JVal.num 1250)] = true :=
  (C10_matcher_string_coercion [] [("value", JVal.num 1250)] [("value", JVal.str "1250")]
    (fun k => by
      by_cases hk : "value" = k
      · subst hk; decide
      · simp [candRepr, metaGet, hk])).2.2.2

/-! ## Cross-document matching: C2 -/

theorem lookupFound_map (l : List String) (g : String → Option Nat) (d : String)
    (hd : d ∈ l) : lookupFound (l.map fun t => (t, g t)) d = some (g d) := by
  induction l with
  | nil => cases hd
  | cons a t ih =>
    rw [List.map_cons]
    by_cases ha : a = d
    · subst ha
      unfold lookupFound
      rw [List.find?_cons_of_pos _ (by simp)]
    · have hd' : d ∈ t := by
        rcases List.mem_cons.mp hd with h | h
        · exact absurd h.symm ha
        · exact h
      unfold lookupFound
      rw [List.find?_cons_of_neg _ (by simp [ha])]
      exact ih hd'

theorem candAccepts_iff (mk : List (String × String)) (m : Meta) :
    candAccepts mk m = true ↔
      ∀ kv ∈ mk, ∃ cv, metaGet m kv.1 = some cv ∧
        reprTrim cv ≠ "" ∧ reprTrim cv = kv.2 := by
  simp only [candAccepts, Bool.and_eq_true, Bool.not_eq_true', allPresentB, mismatchB,
    List.all_eq_true, List.any_eq_false, candRepr]
  constructor
  · rintro ⟨hall, hmis⟩ kv hkv
    have h1 := hall kv hkv
    have h2 := hmis kv hkv
    cases hc : metaGet m kv.1 with
    | none => rw [hc] at h1; simp at h1
    | some cv =>
      rw [hc] at h1 h2
      simp only [Option.map_some', Option.isSome_some, Option.getD_some, true_and,
        bne_iff_ne, ne_eq, Bool.not_eq_true] at h1 h2
      refine ⟨cv, rfl, ?_, ?_⟩
      · simpa using h1
      · simpa using h2
  · intro h
    constructor
    · intro kv hkv
      obtain ⟨cv, hget, hnb, _⟩ := h kv hkv
      rw [hget]
      simpa using hnb
    · intro kv hkv
      obtain ⟨cv, hget, _, heq⟩ := h kv hkv
      rw [hget]
      simpa using heq

/-- C2: with non-empty metadata, the matcher reports the source's own type as
matched with the source's own id, and reports any other of the four types as
matched exactly when some different same-uploader document of that type has
every match key present, non-blank, and trim-equal to the source's value
(extra keys on the candidate play no role in the condition). -/
theorem C2_cross_document_matcher (store : List Doc) (doc : Doc) (dtype : String)
    (hmeta : doc.metadata ≠ []) (hty : dtype ∈ requiredTypes) :
    (doc.docType = dtype →
      lookupFound (runValidation store doc).found dtype = some (some doc.id)) ∧
    (doc.docType ≠ dtype →
      ((∃ j, lookupFound (runValidation store doc).found dtype = some (some j)) ↔
        ∃ cand ∈ store, cand.uploader = doc.uploader ∧ cand.docType = dtype ∧
          cand.id ≠ doc.id ∧
          ∀ kv ∈ matchKeys doc.metadata, ∃ cv, metaGet cand.metadata kv.1 = some cv ∧
            reprTrim cv ≠ "" ∧ reprTrim cv = kv.2)) := by
  have hne : doc.metadata.isEmpty = false := by
    cases hm : doc.metadata with
    | nil => exact absurd hm hmeta
    | cons a t => rfl
  have hfound : (runValidation store doc).found =
      requiredTypes.map fun t => (t, findForType store doc (matchKeys doc.metadata) t) := by
    simp [runValidation, hne]
  constructor
  · intro heq
    rw [hfound, lookupFound_map _ _ _ hty]
    simp [findForType, heq]
  · intro hnt
    rw [hfound, lookupFound_map _ _ _ hty]
    have hff : findForType store doc (matchKeys doc.metadata) dtype =
        ((docCandidates store doc dtype).find? fun c =>
          candAccepts (matchKeys doc.metadata) c.metadata).map (·.id) := by
      simp [findForType, hnt]
    rw [hff]
    constructor
    · rintro ⟨j, hj⟩
      rw [Option.some_inj] at hj
      obtain ⟨c, hfind, -⟩ := Option.map_eq_some'.mp hj
      have hmem := List.mem_of_find?_eq_some hfind
      have hacc := List.find?_some hfind
      obtain ⟨hcs, hp⟩ := List.mem_filter.mp hmem
      simp only [Bool.and_eq_true, beq_iff_eq, bne_iff_ne, ne_eq] at hp
      exact ⟨c, hcs, hp.1.1, hp.1.2, hp.2, (candAccepts_iff _ _).mp hacc⟩
    · rintro ⟨c, hcs, hu, ht, hid, hkeys⟩
      have hc : c ∈ docCandidates store doc dtype :=
        List.mem_filter.mpr ⟨hcs, by simp [hu, ht, hid]⟩
      have hsome : (((docCandidates store doc dtype).find? fun c =>
          candAccepts (matchKeys doc.metadata) c.metadata)).isSome = true := by
        rw [List.find?_isSome]
        exact ⟨c, hc, (candAccepts_iff _ _).mpr hkeys⟩
      obtain ⟨c', hc'⟩ := Option.isSome_iff_exists.mp hsome
      exact ⟨c'.id, by rw [hc']; rfl⟩

/-- C2 witness: a bol_awb document is reported as matching its own type with
its own id. -/
theorem C2_cross_document_matcher_witness :
    lookupFound (runValidation
        [Doc.mk 1 7 "bol_awb" [("hs_code", JVal.str "8501")] [],
         Doc.mk 2 7 "invoice" [("hs_code", JVal.str " 8501 ")] []]
        (Doc.mk 1 7 "bol_awb" [("hs_code", JVal.str "8501")] [])).found "bol_awb" =
      some (some 1) :=
  (C2_cross_document_matcher
    [Doc.mk 1 7 "bol_awb" [("hs_code", JVal.str "8501")] [],
     Doc.mk 2 7 "invoice" [("hs_code", JVal.str " 8501 ")] []]
    (Doc.mk 1 7 "bol_awb" [("hs_code", JVal.str "8501")] [])
    "bol_awb" (by decide) (by decide)).1 rfl

/-! ## Pipeline status transitions and failure absorption: C7, C8 -/

/-- C7, amended: within one run the persisted extraction statuses form one of
the forward chains pending (no write), pending to running, running to failed,
running to done, or running to done to failed — the last arising when a step
after the done-status write (metadata persistence or validation) raises; the
status never moves backwards and never leaves failed. -/
theorem C7_status_transitions_amended (env : TaskEnv) :
    (runExtractTask env).writes ∈
      ([[], [ExtStatus.running], [ExtStatus.running, ExtStatus.failed],
        [ExtStatus.running, ExtStatus.done],
        [ExtStatus.running, ExtStatus.done, ExtStatus.failed]] :
        List (List ExtStatus)) := by
  obtain ⟨fe, rs, po, ds, ms, vo, fs, dt, ot, dm⟩ := env
  unfold runExtractTask handleFailure
  cases fe <;> cases rs <;> cases po <;> cases ds <;> cases ms <;> cases vo <;> cases fs <;>
    simp_all <;> split <;> simp

/-- C7 counterexample: when every step up to and including the done-status
write succeeds but the validation step raises and the failure-status write
succeeds, the persisted statuses are running, done, failed — the status
reaches done and subsequently becomes failed in the same run. -/
theorem C7_status_transitions_counterexample :
    (runExtractTask
        (TaskEnv.mk true true true true true false true "" "" [])).writes =
      [ExtStatus.running, ExtStatus.done, ExtStatus.failed] := by decide

/-- C8, amended: provided the running-status write, the file-path resolution
and the failure-status write do not themselves raise, no exception escapes
the task: it returns a structured payload, and on an inner failure the last
persisted status is failed and a failure audit entry was attempted.  (The
unamended claim also covers exceptions from the steps before the `try`
block and from the failure handler's own write, which do escape.) -/
theorem C8_failure_absorption_amended (env : TaskEnv)
    (h1 : env.runningSaveOk = true) (h2 : env.pathOk = true)
    (h3 : env.failSaveOk = true) :
    (runExtractTask env).raised = false ∧
    ((runExtractTask env).payload = some TaskPayload.notFound ∨
     (runExtractTask env).payload = some TaskPayload.donePayload ∨
     ((runExtractTask env).payload = some TaskPayload.failedPayload ∧
       (runExtractTask env).writes.getLast? = some ExtStatus.failed ∧
       (runExtractTask env).auditedFailure = true)) := by
  obtain ⟨fe, rs, po, ds, ms, vo, fs, dt, ot, dm⟩ := env
  simp only at h1 h2 h3
  subst h1; subst h2; subst h3
  unfold runExtractTask handleFailure
  cases fe <;> cases ds <;> cases ms <;> cases vo <;> simp_all
  all_goals first
  | rfl
  | (split <;> simp)

/-- C8 witness: with the done-status write raising inside the try block and
the pre-try steps and failure write succeeding, nothing escapes the task. -/
theorem C8_failure_absorption_witness :
    (runExtractTask (TaskEnv.mk true true true false true true true "" "" [])).raised =
      false :=
  (C8_failure_absorption_amended
    (TaskEnv.mk true true true false true true true "" "" []) rfl rfl rfl).1

/-- C8 counterexample: the DocumentFile exists but resolving its file path
(`df.file.path`, executed before the `try` block) raises; the exception
escapes the task to the scheduler, refuting that no exception ever
propagates out. -/
theorem C8_failure_absorption_counterexample :
    (runExtractTask (TaskEnv.mk true true false true true true true "" "" [])).raised =
      true ∧
    (runExtractTask (TaskEnv.mk true true false true true true true "" "" [])).payload =
      none := by decide

/-! ## Leftmost-match characterisation of the scanner: lemmas for C5 -/

theorem prevFrom_cons (p : Option Char) (c : Char) (t : List Char) (j : Nat) :
    prevFrom p (c :: t) (j + 1) = prevFrom (some c) t j := by
  cases j with
  | zero => simp [prevFrom, nthChar]
  | succ m => simp [prevFrom, nthChar]

theorem scanGo_eq_some {α} (f : Option Char → List Char → Option α)
    (hnil : ∀ p, f p [] = none) (rest : List Char) :
    ∀ (p : Option Char) (v : α),
      scanGo f p rest = some v ↔
        ∃ i, f (prevFrom p rest i) (rest.drop i) = some v ∧
          ∀ j, j < i → f (prevFrom p rest j) (rest.drop j) = none := by
  induction rest with
  | nil =>
    intro p v
    rw [show scanGo f p [] = f p [] from rfl, hnil]
    constructor
    · intro h; exact absurd h (by simp)
    · rintro ⟨i, hi, -⟩
      rw [List.drop_nil, hnil] at hi
      exact absurd hi (by simp)
  | cons c t ih =>
    intro p v
    rw [show scanGo f p (c :: t) =
      (match f p (c :: t) with
       | some w => some w
       | none => scanGo f (some c) t) from rfl]
    cases h0 : f p (c :: t) with
    | some w =>
      simp only
      constructor
      · intro hv
        refine ⟨0, ?_, fun j hj => absurd hj (Nat.not_lt_zero j)⟩
        rw [show prevFrom p (c :: t) 0 = p from rfl, List.drop_zero, h0]
        exact hv
      · rintro ⟨i, hi, hlt⟩
        cases i with
        | zero =>
          rw [show prevFrom p (c :: t) 0 = p from rfl, List.drop_zero, h0] at hi
          exact hi
        | succ n =>
          have h00 := hlt 0 (Nat.succ_pos n)
          rw [show prevFrom p (c :: t) 0 = p from rfl, List.drop_zero, h0] at h00
          exact absurd h00 (by simp)
    | none =>
      simp only
      rw [ih (some c) v]
      constructor
      · rintro ⟨i, hi, hlt⟩
        refine ⟨i + 1, ?_, ?_⟩
        · rwa [prevFrom_cons, List.drop_succ_cons]
        · intro j hj
          cases j with
          | zero =>
            rw [show prevFrom p (c :: t) 0 = p from rfl, List.drop_zero]
            exact h0
          | succ m =>
            rw [prevFrom_cons, List.drop_succ_cons]
            exact hlt m (by omega)
      · rintro ⟨i, hi, hlt⟩
        cases i with
        | zero =>
          rw [show prevFrom p (c :: t) 0 = p from rfl, List.drop_zero, h0] at hi
          exact absurd hi (by simp)
        | succ n =>
          refine ⟨n, ?_, ?_⟩
          · rwa [prevFrom_cons, List.drop_succ_cons] at hi
          · intro m hm
            have hmm := hlt (m + 1) (by omega)
            rwa [prevFrom_cons, List.drop_succ_cons] at hmm

theorem scanGo_eq_none {α} (f : Option Char → List Char → Option α)
    (hnil : ∀ p, f p [] = none) (rest : List Char) :
    ∀ (p : Option Char),
      scanGo f p rest = none ↔
        ∀ i, f (prevFrom p rest i) (rest.drop i) = none := by
  induction rest with
  | nil =>
    intro p
    rw [show scanGo f p [] = f p [] from rfl, hnil]
    constructor
    · intro _ i
      rw [List.drop_nil, hnil]
    · intro _; rfl
  | cons c t ih =>
    intro p
    rw [show scanGo f p (c :: t) =
      (match f p (c :: t) with
       | some w => some w
       | none => scanGo f (some c) t) from rfl]
    cases h0 : f p (c :: t) with
    | some w =>
      simp only
      constructor
      · intro h; exact absurd h (by simp)
      · intro h
        have h00 := h 0
        rw [show prevFrom p (c :: t) 0 = p from rfl, List.drop_zero, h0] at h00
        exact absurd h00 (by simp)
    | none =>
      simp only
      rw [ih (some c)]
      constructor
      · intro h i
        cases i with
        | zero =>
          rw [show prevFrom p (c :: t) 0 = p from rfl, List.drop_zero]
          exact h0
        | succ m =>
          rw [prevFrom_cons, List.drop_succ_cons]
          exact h m
      · intro h m
        have hm := h (m + 1)
        rwa [prevFrom_cons, List.drop_succ_cons] at hm

theorem scanFirst_eq_some {α} (f : Option Char → List Char → Option α)
    (hnil : ∀ p, f p [] = none) (cs : List Char) (v : α) :
    scanFirst f cs = some v ↔
      ∃ i, atPos f cs i = some v ∧ ∀ j, j < i → atPos f cs j = none := by
  unfold scanFirst atPos
  exact scanGo_eq_some f hnil cs none v

theorem scanFirst_eq_none {α} (f : Option Char → List Char → Option α)
    (hnil : ∀ p, f p [] = none) (cs : List Char) :
    scanFirst f cs = none ↔ ∀ i, atPos f cs i = none := by
  unfold scanFirst atPos
  exact scanGo_eq_none f hnil cs none

theorem hsCore_nil (p : Option Char) : hsCore p [] = none := rfl

theorem sixCore_nil (p : Option Char) : sixCore p [] = none := by
  simp [sixCore, countLeading, nthChar]

theorem firstHit_unique {α} {f : Option Char → List Char → Option α} {cs : List Char}
    {v w : α}
    (hv : ∃ i, atPos f cs i = some v ∧ ∀ j, j < i → atPos f cs j = none)
    (hw : ∃ i, atPos f cs i = some w ∧ ∀ j, j < i → atPos f cs j = none) : v = w := by
  obtain ⟨i, hi, hli⟩ := hv
  obtain ⟨i', hi', hli'⟩ := hw
  rcases Nat.lt_trichotomy i i' with h | h | h
  · rw [hli' i h] at hi
    exact absurd hi (by simp)
  · subst h
    rw [hi] at hi'
    exact Option.some_inj.mp hi'
  · rw [hli i' h] at hi'
    exact absurd hi' (by simp)

/-- C5: the parser's hs_code is the leftmost match of the HS-prefixed pattern
in the whitespace-normalised text; failing that, the leftmost standalone
six-digit run; failing both, the key is absent.  `atPos hsCore` and
`atPos sixCore` are the two patterns evaluated at a position, so the
right-hand sides say there is a match whose every earlier position fails. -/
theorem C5_hs_code_extraction (s : String) :
    (∀ v, (parse_text_for_metadata s).hs_code = some v ↔
      (∃ i, atPos hsCore (normalizeWs s).data i = some v ∧
        ∀ j, j < i → atPos hsCore (normalizeWs s).data j = none) ∨
      ((∀ i, atPos hsCore (normalizeWs s).data i = none) ∧
        ∃ i, atPos sixCore (normalizeWs s).data i = some v ∧
          ∀ j, j < i → atPos sixCore (normalizeWs s).data j = none)) ∧
    ((parse_text_for_metadata s).hs_code = none ↔
      (∀ i, atPos hsCore (normalizeWs s).data i = none) ∧
      ∀ i, atPos sixCore (normalizeWs s).data i = none) := by
  by_cases hs : s.data.isEmpty
  · have hd : s.data = [] := by
      cases hm : s.data with
      | nil => rfl
      | cons a t => rw [hm] at hs; exact absurd hs (by simp)
    have hn : (normalizeWs s).data = [] := by rw [normalizeWs, hd]; rfl
    have hp : parse_text_for_metadata s = {} := by
      rw [parse_text_for_metadata, if_pos hs]
    have hatH : ∀ i, atPos hsCore (normalizeWs s).data i = none := by
      intro i
      rw [hn]
      unfold atPos
      rw [List.drop_nil]
      exact hsCore_nil _
    have hatS : ∀ i, atPos sixCore (normalizeWs s).data i = none := by
      intro i
      rw [hn]
      unfold atPos
      rw [List.drop_nil]
      exact sixCore_nil _
    rw [hp]
    constructor
    · intro v
      constructor
      · intro h; exact absurd h (by simp)
      · rintro (⟨i, hi, -⟩ | ⟨-, i, hi, -⟩)
        · rw [hatH i] at hi; exact absurd hi (by simp)
        · rw [hatS i] at hi; exact absurd hi (by simp)
    · exact iff_of_true rfl ⟨hatH, hatS⟩
  · have hp : (parse_text_for_metadata s).hs_code = hsField (normalizeWs s).data := by
      rw [parse_text_for_metadata, if_neg hs]
    rw [hp]
    unfold hsField
    cases h1 : scanFirst hsCore (normalizeWs s).data with
    | some w =>
      have hw := (scanFirst_eq_some hsCore hsCore_nil _ w).mp h1
      constructor
      · intro v
        constructor
        · intro hv
          have hwv : w = v := Option.some_inj.mp hv
          subst hwv
          exact Or.inl hw
        · rintro (hfst | ⟨hall, -⟩)
          · exact congrArg some (firstHit_unique hw hfst)
          · obtain ⟨i, hi, -⟩ := hw
            rw [hall i] at hi
            exact absurd hi (by simp)
      · constructor
        · intro h; exact absurd h (by simp)
        · rintro ⟨hall, -⟩
          obtain ⟨i, hi, -⟩ := hw
          rw [hall i] at hi
          exact absurd hi (by simp)
    | none =>
      have hallH := (scanFirst_eq_none hsCore hsCore_nil _).mp h1
      cases h2 : scanFirst sixCore (normalizeWs s).data with
      | some w =>
        have hw := (scanFirst_eq_some sixCore sixCore_nil _ w).mp h2
        constructor
        · intro v
          constructor
          · intro hv
            have hwv : w = v := Option.some_inj.mp hv
            subst hwv
            exact Or.inr ⟨hallH, hw⟩
          · rintro (⟨i, hi, -⟩ | ⟨-, hfst⟩)
            · rw [hallH i] at hi
              exact absurd hi (by simp)
            · exact congrArg some (firstHit_unique hw hfst)
        · constructor
          · intro h; exact absurd h (by simp)
          · rintro ⟨-, hallS⟩
            obtain ⟨i, hi, -⟩ := hw
            rw [hallS i] at hi
            exact absurd hi (by simp)
      | none =>
        have hallS := (scanFirst_eq_none sixCore sixCore_nil _).mp h2
        constructor
        · intro v
          constructor
          · intro h; exact absurd h (by simp)
          · rintro (⟨i, hi, -⟩ | ⟨-, i, hi, -⟩)
            · rw [hallH i] at hi
              exact absurd hi (by simp)
            · rw [hallS i] at hi
              exact absurd hi (by simp)
        · exact iff_of_true rfl ⟨hallH, hallS⟩

end DocValid
